import Mathlib

/-!
# Frame sizes of @CriticalNative calls on ARM64

A shallow embedding of `runtime/arch/arm64/jni_frame_arm64.h` and the properties
of its four size queries.

Modelling decisions.

* `size_t` is modelled twice. The four queries are written in exact arithmetic on
  natural numbers: every subtraction of the source has the shape `x - min(k, x)`
  or `length - 1 - count` with `count ≤ length - 1`, so the truncated subtraction
  of `Nat` agrees with the unsigned one (lemmas `min_budget_le`,
  `countP_tail_le`). The copies whose names end in `64` take every operation
  modulo `2 ^ 64` and flag a wrap. The two agree as long as the exact size is
  below `2 ^ 64` (`outArgs64_of_fits`), hence for every shorty of up to `2 ^ 60`
  characters (`callArgs64_eq`, `stub64_eq`); statements about shorties use the
  exact queries, statements about arbitrary counts use the copies on words.
* `std::string_view` is a `List Char`; `shorty.begin() + 1 .. shorty.end()` is
  `shorty.tail`, `shorty.length()` is `shorty.length`, and `shorty[0]` is
  `shorty[0]?`. The source requires a non-empty shorty (anything else is
  undefined behaviour); theorems about shorties carry that precondition.
-/

namespace art.arm64

/-! ## Constants -/

/-- Modelled from the spec: the numeric value of `PointerSize::k64`, the machine
word of the target. The enum is declared in a header outside this file; the spec
fixes the word at 8 bytes and the source comments `Each stack argument takes 8 bytes`. -/
def kArm64PointerSize : Nat := 8

/-- Source: `constexpr size_t kFramePointerSize = static_cast<size_t>(PointerSize::k64)`. -/
def kFramePointerSize : Nat := kArm64PointerSize

/-- Source: `static constexpr size_t kAapcs64StackAlignment = 16u`. -/
def kAapcs64StackAlignment : Nat := 16

/-- Source: `constexpr size_t kMaxFloatOrDoubleRegisterArguments = 8u`. -/
def kMaxFloatOrDoubleRegisterArguments : Nat := 8

/-- Source: `constexpr size_t kMaxIntLikeRegisterArguments = 8u`. -/
def kMaxIntLikeRegisterArguments : Nat := 8

/-! ## Helpers declared outside the file -/

/-- Modelled from the spec: `RoundUp(x, n)` of `base/bit_utils.h`, which is not
among the sources. The spec says the size is rounded up to the stack-alignment
boundary; this is the usual `(x + n - 1)` rounded down to a multiple of `n`. -/
def RoundUp (x n : Nat) : Nat := (x + n - 1) / n * n

/-! ## The four queries -/

/-- The lambda `[](char c) { return c == 'F' || c == 'D'; }` of the source. -/
def isFpChar (c : Char) : Bool := c == 'F' || c == 'D'

/-- Source: `GetNativeOutArgsSize(size_t num_fp_args, size_t num_non_fp_args)`, in
exact arithmetic. This is what the code returns as long as the product fits a
word; the code on arbitrary words is `GetNativeOutArgsSize64`. -/
def GetNativeOutArgsSize (num_fp_args num_non_fp_args : Nat) : Nat :=
  -- Account for FP arguments passed through v0-v7.
  let num_stack_fp_args :=
    num_fp_args - min kMaxFloatOrDoubleRegisterArguments num_fp_args
  -- Account for other (integer and pointer) arguments passed through GPR (x0-x7).
  let num_stack_non_fp_args :=
    num_non_fp_args - min kMaxIntLikeRegisterArguments num_non_fp_args
  -- Each stack argument takes 8 bytes.
  (num_stack_fp_args + num_stack_non_fp_args) * kArm64PointerSize

/-- Source: `GetCriticalNativeCallArgsSize(std::string_view shorty)`. -/
def GetCriticalNativeCallArgsSize (shorty : List Char) : Nat :=
  let num_fp_args := shorty.tail.countP isFpChar
  let num_non_fp_args := shorty.length - 1 - num_fp_args
  GetNativeOutArgsSize num_fp_args num_non_fp_args

/-- Source: `GetCriticalNativeStubFrameSize(std::string_view shorty)`. -/
def GetCriticalNativeStubFrameSize (shorty : List Char) : Nat :=
  -- The size of outgoing arguments.
  let size := GetCriticalNativeCallArgsSize shorty
  -- We can make a tail call if there are no stack args and we do not need
  -- to extend the result. Otherwise, add space for return PC.
  let size :=
    if size != 0 || shorty[0]? == some 'B' || shorty[0]? == some 'C'
        || shorty[0]? == some 'S' || shorty[0]? == some 'Z' then
      size + kFramePointerSize
    else
      size
  RoundUp size kAapcs64StackAlignment

/-- Source: `GetCriticalNativeDirectCallFrameSize(std::string_view shorty)`. -/
def GetCriticalNativeDirectCallFrameSize (shorty : List Char) : Nat :=
  -- The size of outgoing arguments.
  let size := GetCriticalNativeCallArgsSize shorty
  -- No return PC to save, zero- and sign-extension are handled by the caller.
  RoundUp size kAapcs64StackAlignment

/-! ## Vocabulary of the specification -/

/-- The narrow integer kinds whose result the caller of the stub must extend:
byte, char, short and boolean. -/
def IsNarrowReturn (c : Char) : Prop := c = 'B' ∨ c = 'C' ∨ c = 'S' ∨ c = 'Z'

instance (c : Char) : Decidable (IsNarrowReturn c) := by
  unfold IsNarrowReturn; infer_instance

/-- Number of floating-point-class characters (`F` or `D`) in a list of argument characters. -/
def fpArgCount (args : List Char) : Nat :=
  (args.filter (fun c => decide (c = 'F' ∨ c = 'D'))).length

/-- Number of integer-class characters (neither `F` nor `D`) in a list of argument characters. -/
def intArgCount (args : List Char) : Nat :=
  (args.filter (fun c => decide (¬ (c = 'F' ∨ c = 'D')))).length

/-- The multiples of `n` that are at least `x`; the least of them is what rounding
`x` up to the boundary `n` has to produce. -/
def multiplesAtLeast (n x : Nat) : Set Nat := {m | n ∣ m ∧ x ≤ m}

/-! ## The same code on 64-bit words

`size_t` as a 64-bit unsigned integer: every operation is taken modulo `2 ^ 64`
and reports whether its exact result left the range. A function on words returns
its value together with the disjunction of the flags of all operations it ran. -/

/-- Number of values of a 64-bit `size_t`. -/
def kSizeModulus : Nat := 2 ^ 64

/-- Unsigned 64-bit addition: the wrapped sum, and whether the exact sum overflowed. -/
def add64 (a b : Nat) : Nat × Bool :=
  ((a + b) % kSizeModulus, decide (kSizeModulus ≤ a + b))

/-- Unsigned 64-bit subtraction of words `a b < 2 ^ 64`: the wrapped difference, and
whether the exact difference was negative. -/
def sub64 (a b : Nat) : Nat × Bool :=
  ((a + kSizeModulus - b) % kSizeModulus, decide (a < b))

/-- Unsigned 64-bit multiplication: the wrapped product, and whether the exact
product overflowed. -/
def mul64 (a b : Nat) : Nat × Bool :=
  ((a * b) % kSizeModulus, decide (kSizeModulus ≤ a * b))

/-- Modelled from the spec: `RoundUp(x, n)` of `base/bit_utils.h` on 64-bit words.
The header is not among the sources; the spec says the size is rounded up to the
alignment boundary, here computed as `x + n - 1` rounded down to a multiple of `n`,
with the addition and the subtraction performed on words. -/
def RoundUp64 (x n : Nat) : Nat × Bool :=
  let t := add64 x n
  let u := sub64 t.1 1
  (u.1 / n * n, t.2 || u.2)

/-- Source: `GetNativeOutArgsSize`, on 64-bit words. -/
def GetNativeOutArgsSize64 (num_fp_args num_non_fp_args : Nat) : Nat × Bool :=
  let num_stack_fp_args :=
    sub64 num_fp_args (min kMaxFloatOrDoubleRegisterArguments num_fp_args)
  let num_stack_non_fp_args :=
    sub64 num_non_fp_args (min kMaxIntLikeRegisterArguments num_non_fp_args)
  let sum := add64 num_stack_fp_args.1 num_stack_non_fp_args.1
  let bytes := mul64 sum.1 kArm64PointerSize
  (bytes.1, num_stack_fp_args.2 || num_stack_non_fp_args.2 || sum.2 || bytes.2)

/-- Source: `GetCriticalNativeCallArgsSize`, on 64-bit words. The shorty is a
`std::string_view`, whose length is a `size_t`. -/
def GetCriticalNativeCallArgsSize64 (shorty : List Char) : Nat × Bool :=
  let num_fp_args := shorty.tail.countP isFpChar
  let len_minus_one := sub64 shorty.length 1
  let num_non_fp_args := sub64 len_minus_one.1 num_fp_args
  let size := GetNativeOutArgsSize64 num_fp_args num_non_fp_args.1
  (size.1, len_minus_one.2 || num_non_fp_args.2 || size.2)

/-- Source: `GetCriticalNativeStubFrameSize`, on 64-bit words. -/
def GetCriticalNativeStubFrameSize64 (shorty : List Char) : Nat × Bool :=
  let size := GetCriticalNativeCallArgsSize64 shorty
  let with_lr :=
    if size.1 != 0 || shorty[0]? == some 'B' || shorty[0]? == some 'C'
        || shorty[0]? == some 'S' || shorty[0]? == some 'Z' then
      add64 size.1 kFramePointerSize
    else
      (size.1, false)
  let rounded := RoundUp64 with_lr.1 kAapcs64StackAlignment
  (rounded.1, size.2 || with_lr.2 || rounded.2)

/-! ## Auxiliary lemmas -/

/-- The subtrahend of each subtraction in `GetNativeOutArgsSize` never exceeds the minuend. -/
theorem min_budget_le (k x : Nat) : min k x ≤ x := Nat.min_le_right k x

/-- The floating-point tally never exceeds the number of argument characters. -/
theorem countP_tail_le (shorty : List Char) (h : shorty ≠ []) :
    shorty.tail.countP isFpChar ≤ shorty.length - 1 := by
  cases shorty with
  | nil => exact absurd rfl h
  | cons r args => simpa using List.countP_le_length isFpChar

theorem isFpChar_iff (c : Char) : isFpChar c = true ↔ (c = 'F' ∨ c = 'D') := by
  simp [isFpChar]

theorem countP_isFpChar (args : List Char) : args.countP isFpChar = fpArgCount args := by
  unfold fpArgCount
  rw [List.countP_eq_length_filter]
  congr 2
  funext c
  by_cases h1 : c = 'F' <;> by_cases h2 : c = 'D' <;> simp [isFpChar, h1, h2]

theorem fpArgCount_add_intArgCount (args : List Char) :
    fpArgCount args + intArgCount args = args.length := by
  induction args with
  | nil => rfl
  | cons c cs ih =>
    simp only [fpArgCount, intArgCount, List.filter_cons, List.length_cons] at ih ⊢
    by_cases hc : c = 'F' ∨ c = 'D'
    · rw [if_pos (decide_eq_true hc), if_neg (by simp only [decide_not, hc, decide_True, Bool.not_true, Bool.false_eq_true, not_false_eq_true])]
      simp only [List.length_cons]
      omega
    · rw [if_neg (by simpa using hc), if_pos (decide_eq_true hc)]
      simp only [List.length_cons]
      omega

theorem fpArgCount_eq_zero (args : List Char) (h : ∀ c ∈ args, c ≠ 'F' ∧ c ≠ 'D') :
    fpArgCount args = 0 := by
  unfold fpArgCount
  rw [List.length_eq_zero, List.filter_eq_nil_iff]
  intro c hc
  have := h c hc
  simp [this.1, this.2]

theorem outArgs_closed (fp nonFp : Nat) :
    GetNativeOutArgsSize fp nonFp = ((fp - 8) + (nonFp - 8)) * 8 := by
  simp only [GetNativeOutArgsSize, kMaxFloatOrDoubleRegisterArguments,
    kMaxIntLikeRegisterArguments, kArm64PointerSize]
  omega

theorem callArgs_cons (r : Char) (args : List Char) :
    GetCriticalNativeCallArgsSize (r :: args)
      = GetNativeOutArgsSize (fpArgCount args) (intArgCount args) := by
  have h := fpArgCount_add_intArgCount args
  simp only [GetCriticalNativeCallArgsSize, List.tail_cons, List.length_cons,
    countP_isFpChar]
  congr 1
  omega

theorem roundUp16 (x : Nat) : RoundUp x 16 = (x + 15) / 16 * 16 := rfl

theorem roundUp16_isLeast (x : Nat) : IsLeast (multiplesAtLeast 16 x) (RoundUp x 16) := by
  rw [roundUp16]
  unfold multiplesAtLeast
  refine ⟨⟨Nat.dvd_mul_left 16 _, by omega⟩, ?_⟩
  rintro m ⟨⟨k, rfl⟩, hx⟩
  omega

theorem stub_cons (r : Char) (args : List Char) :
    GetCriticalNativeStubFrameSize (r :: args)
      = if GetCriticalNativeCallArgsSize (r :: args) ≠ 0 ∨ IsNarrowReturn r then
          RoundUp (GetCriticalNativeCallArgsSize (r :: args) + 8) 16
        else RoundUp (GetCriticalNativeCallArgsSize (r :: args)) 16 := by
  simp only [GetCriticalNativeStubFrameSize, IsNarrowReturn, kFramePointerSize,
    kArm64PointerSize, kAapcs64StackAlignment]
  by_cases h : GetCriticalNativeCallArgsSize (r :: args) ≠ 0 ∨ (r = 'B' ∨ r = 'C' ∨ r = 'S' ∨ r = 'Z')
  · rw [if_pos h, if_pos]
    simpa [or_assoc] using h
  · rw [if_neg h, if_neg]
    simpa [or_assoc] using h

theorem direct_eq (shorty : List Char) :
    GetCriticalNativeDirectCallFrameSize shorty
      = RoundUp (GetCriticalNativeCallArgsSize shorty) 16 := rfl

/-! ## The claims -/

/-- C2. For a non-empty shorty with call-argument size `a`: when `a ≠ 0` or the
first character is one of `B`, `C`, `S`, `Z`, the stub frame size is the least
multiple of 16 that is at least `a + 8`; otherwise the stub frame size is 0. -/
theorem C2_stub_frame_size (s : List Char) (hs : s ≠ []) :
    ((GetCriticalNativeCallArgsSize s ≠ 0 ∨ IsNarrowReturn (s.head hs)) →
        IsLeast (multiplesAtLeast 16 (GetCriticalNativeCallArgsSize s + 8))
          (GetCriticalNativeStubFrameSize s))
    ∧ (¬ (GetCriticalNativeCallArgsSize s ≠ 0 ∨ IsNarrowReturn (s.head hs)) →
        GetCriticalNativeStubFrameSize s = 0) := by
  cases s with
  | nil => exact absurd rfl hs
  | cons r args =>
    rw [stub_cons, List.head_cons]
    constructor
    · intro h
      rw [if_pos h]
      exact roundUp16_isLeast _
    · intro h
      rw [if_neg h]
      have h0 : GetCriticalNativeCallArgsSize (r :: args) = 0 := by
        by_contra hne
        exact h (Or.inl hne)
      rw [h0]
      rfl

theorem C2_stub_frame_size_witness :
    IsLeast (multiplesAtLeast 16 (GetCriticalNativeCallArgsSize ['Z', 'I'] + 8))
        (GetCriticalNativeStubFrameSize ['Z', 'I'])
    ∧ GetCriticalNativeStubFrameSize ['J', 'I'] = 0 :=
  ⟨(C2_stub_frame_size ['Z', 'I'] (by decide)).1 (Or.inr (by decide)),
   (C2_stub_frame_size ['J', 'I'] (by decide)).2 (by decide)⟩

/-- C3. For a non-empty shorty the direct-call frame size is the least multiple
of 16 that is at least the call-argument size; nothing is added for a return
address, whatever the first character is. -/
theorem C3_direct_call_frame_size (s : List Char) (_hs : s ≠ []) :
    IsLeast (multiplesAtLeast 16 (GetCriticalNativeCallArgsSize s))
      (GetCriticalNativeDirectCallFrameSize s) := by
  rw [direct_eq]
  exact roundUp16_isLeast _

theorem C3_direct_call_frame_size_witness :
    IsLeast (multiplesAtLeast 16 (GetCriticalNativeCallArgsSize ['Z', 'I']))
      (GetCriticalNativeDirectCallFrameSize ['Z', 'I']) :=
  C3_direct_call_frame_size ['Z', 'I'] (by decide)

/-- C4. For a non-empty shorty the call-argument size is `GetNativeOutArgsSize f n`
where `f` counts the characters after the first that are `F` or `D` and `n` counts
the characters after the first that are neither; the first character enters
neither tally. -/
theorem C4_call_args_size_tallies (s : List Char) (hs : s ≠ []) :
    GetCriticalNativeCallArgsSize s
      = GetNativeOutArgsSize (fpArgCount s.tail) (intArgCount s.tail) := by
  cases s with
  | nil => exact absurd rfl hs
  | cons r args => exact callArgs_cons r args

theorem C4_call_args_size_tallies_witness :
    GetCriticalNativeCallArgsSize ['F', 'I', 'D', 'J']
      = GetNativeOutArgsSize (fpArgCount ['I', 'D', 'J']) (intArgCount ['I', 'D', 'J']) :=
  C4_call_args_size_tallies ['F', 'I', 'D', 'J'] (by decide)

/-- C5. For a non-empty shorty both the stub frame size and the direct-call
frame size are multiples of the stack alignment 16. -/
theorem C5_frame_sizes_aligned (s : List Char) (hs : s ≠ []) :
    16 ∣ GetCriticalNativeStubFrameSize s ∧ 16 ∣ GetCriticalNativeDirectCallFrameSize s := by
  cases s with
  | nil => exact absurd rfl hs
  | cons r args =>
    constructor
    · rw [stub_cons]
      split
      · exact (roundUp16_isLeast _).1.1
      · exact (roundUp16_isLeast _).1.1
    · rw [direct_eq]
      exact (roundUp16_isLeast _).1.1

theorem C5_frame_sizes_aligned_witness :
    16 ∣ GetCriticalNativeStubFrameSize ['B', 'I', 'F']
      ∧ 16 ∣ GetCriticalNativeDirectCallFrameSize ['B', 'I', 'F'] :=
  C5_frame_sizes_aligned ['B', 'I', 'F'] (by decide)

/-- C6. For a non-empty shorty the direct-call frame size is at most the stub
frame size. -/
theorem C6_direct_le_stub (s : List Char) (hs : s ≠ []) :
    GetCriticalNativeDirectCallFrameSize s ≤ GetCriticalNativeStubFrameSize s := by
  cases s with
  | nil => exact absurd rfl hs
  | cons r args =>
    rw [stub_cons, direct_eq]
    split
    · simp only [roundUp16]
      omega
    · exact Nat.le_refl _

theorem C6_direct_le_stub_witness :
    GetCriticalNativeDirectCallFrameSize ['S', 'D']
      ≤ GetCriticalNativeStubFrameSize ['S', 'D'] :=
  C6_direct_le_stub ['S', 'D'] (by decide)

/-- C7. A shorty that is a single return character outside `B`, `C`, `S`, `Z`
(no arguments, no narrow result) has stub frame size 0 and direct-call frame
size 0. -/
theorem C7_no_args_wide_return (c : Char) (hc : ¬ IsNarrowReturn c) :
    GetCriticalNativeStubFrameSize [c] = 0 ∧ GetCriticalNativeDirectCallFrameSize [c] = 0 := by
  have h0 : GetCriticalNativeCallArgsSize [c] = 0 := by
    rw [callArgs_cons]
    rfl
  constructor
  · rw [stub_cons, if_neg, h0]
    · rfl
    · rintro (h | h)
      · exact h h0
      · exact hc h
  · rw [direct_eq, h0]
    rfl

theorem C7_no_args_wide_return_witness :
    ¬ IsNarrowReturn 'J'
      ∧ GetCriticalNativeStubFrameSize ['J'] = 0
      ∧ GetCriticalNativeDirectCallFrameSize ['J'] = 0 :=
  ⟨by decide, C7_no_args_wide_return 'J' (by decide)⟩

/-- C8. A shorty that is a single narrow return character (`Z`, and likewise `B`,
`C`, `S`) has stub frame size equal to one word rounded up to the alignment,
which is 16 and not zero, while its direct-call frame size is 0. -/
theorem C8_no_args_narrow_return (c : Char) (hc : IsNarrowReturn c) :
    GetCriticalNativeStubFrameSize [c] = RoundUp kFramePointerSize kAapcs64StackAlignment
      ∧ RoundUp kFramePointerSize kAapcs64StackAlignment = 16
      ∧ GetCriticalNativeStubFrameSize [c] ≠ 0
      ∧ GetCriticalNativeDirectCallFrameSize [c] = 0 := by
  have h0 : GetCriticalNativeCallArgsSize [c] = 0 := by
    rw [callArgs_cons]
    rfl
  have hstub : GetCriticalNativeStubFrameSize [c] = 16 := by
    rw [stub_cons, if_pos (Or.inr hc), h0]
    rfl
  refine ⟨hstub.trans rfl, rfl, ?_, ?_⟩
  · rw [hstub]
    decide
  · rw [direct_eq, h0]
    rfl

theorem C8_no_args_narrow_return_witness :
    IsNarrowReturn 'Z'
      ∧ GetCriticalNativeStubFrameSize ['Z'] = RoundUp kFramePointerSize kAapcs64StackAlignment
      ∧ RoundUp kFramePointerSize kAapcs64StackAlignment = 16
      ∧ GetCriticalNativeStubFrameSize ['Z'] ≠ 0
      ∧ GetCriticalNativeDirectCallFrameSize ['Z'] = 0 :=
  ⟨by decide, C8_no_args_narrow_return 'Z' (by decide)⟩

/-- C9. A shorty made of a return character outside `B`, `C`, `S`, `Z` followed by
exactly 9 argument characters, none of them `F` or `D`, has call-argument size
`1 * 8 = 8` and stub frame size `RoundUp (8 + 8) 16 = 16`. -/
theorem C9_nine_int_args (r : Char) (args : List Char) (_hr : ¬ IsNarrowReturn r)
    (hlen : args.length = 9) (hint : ∀ c ∈ args, c ≠ 'F' ∧ c ≠ 'D') :
    GetCriticalNativeCallArgsSize (r :: args) = 1 * 8
      ∧ GetCriticalNativeStubFrameSize (r :: args) = RoundUp (8 + 8) 16
      ∧ RoundUp (8 + 8) 16 = 16 := by
  have hfp : fpArgCount args = 0 := fpArgCount_eq_zero args hint
  have hnon : intArgCount args = 9 := by
    have := fpArgCount_add_intArgCount args
    omega
  have ha : GetCriticalNativeCallArgsSize (r :: args) = 8 := by
    rw [callArgs_cons, hfp, hnon]
    rfl
  refine ⟨ha, ?_, rfl⟩
  rw [stub_cons, if_pos (Or.inl (by rw [ha]; decide)), ha]

theorem C9_nine_int_args_witness :
    ¬ IsNarrowReturn 'V'
      ∧ GetCriticalNativeCallArgsSize "VIIIIIIIII".toList = 1 * 8
      ∧ GetCriticalNativeStubFrameSize "VIIIIIIIII".toList = RoundUp (8 + 8) 16
      ∧ RoundUp (8 + 8) 16 = 16 :=
  ⟨by decide,
   C9_nine_int_args 'V' "IIIIIIIII".toList (by decide) (by decide) (by decide)⟩

/-! ## Further auxiliary lemmas -/

theorem callArgs_closed (r : Char) (args : List Char) :
    GetCriticalNativeCallArgsSize (r :: args)
      = ((fpArgCount args - 8) + (intArgCount args - 8)) * 8 := by
  rw [callArgs_cons, outArgs_closed]

theorem stub_tail_head (s : List Char) (hs : s ≠ []) : s = s.head hs :: s.tail := by
  cases s with
  | nil => exact absurd rfl hs
  | cons r args => rfl

theorem fpArgCount_perm {l₁ l₂ : List Char} (h : l₁.Perm l₂) :
    fpArgCount l₁ = fpArgCount l₂ :=
  (h.filter _).length_eq

theorem intArgCount_perm {l₁ l₂ : List Char} (h : l₁.Perm l₂) :
    intArgCount l₁ = intArgCount l₂ :=
  (h.filter _).length_eq

theorem fpArgCount_append (l₁ l₂ : List Char) :
    fpArgCount (l₁ ++ l₂) = fpArgCount l₁ + fpArgCount l₂ := by
  simp [fpArgCount, List.filter_append]

theorem intArgCount_append (l₁ l₂ : List Char) :
    intArgCount (l₁ ++ l₂) = intArgCount l₁ + intArgCount l₂ := by
  simp [intArgCount, List.filter_append]

theorem roundUp16_mono {x y : Nat} (h : x ≤ y) : RoundUp x 16 ≤ RoundUp y 16 := by
  simp only [roundUp16]
  omega

theorem stub_eq_zero_iff (r : Char) (args : List Char) :
    GetCriticalNativeStubFrameSize (r :: args) = 0
      ↔ GetCriticalNativeCallArgsSize (r :: args) = 0 ∧ ¬ IsNarrowReturn r := by
  rw [stub_cons]
  constructor
  · intro h
    by_cases hc : GetCriticalNativeCallArgsSize (r :: args) ≠ 0 ∨ IsNarrowReturn r
    · rw [if_pos hc, roundUp16] at h
      omega
    · exact ⟨by_contra fun h0 => hc (Or.inl h0), fun hn => hc (Or.inr hn)⟩
  · rintro ⟨h0, hn⟩
    rw [if_neg (by rintro (h | h); exacts [h h0, hn h]), h0]
    rfl

/-! ## Further claims -/

/-- C11. The return-type character does not influence argument sizing: two
non-empty shorties with the same characters after the first have the same
call-argument size and the same direct-call frame size; in particular a return
type `F` or `D` is not tallied as a floating-point argument. -/
theorem C11_return_char_irrelevant :
    (∀ s t : List Char, s ≠ [] → t ≠ [] → s.tail = t.tail →
      GetCriticalNativeCallArgsSize s = GetCriticalNativeCallArgsSize t
        ∧ GetCriticalNativeDirectCallFrameSize s = GetCriticalNativeDirectCallFrameSize t)
    ∧ (∀ args : List Char,
        GetCriticalNativeCallArgsSize ('F' :: args)
            = GetNativeOutArgsSize (fpArgCount args) (intArgCount args)
          ∧ GetCriticalNativeCallArgsSize ('D' :: args)
            = GetNativeOutArgsSize (fpArgCount args) (intArgCount args))
    ∧ GetCriticalNativeCallArgsSize "FFFFFFFFF".toList = 0
    ∧ GetCriticalNativeCallArgsSize "DDDDDDDDD".toList = 0 := by
  refine ⟨fun s t hs ht h => ?_, fun args => ⟨callArgs_cons _ _, callArgs_cons _ _⟩,
    by decide, by decide⟩
  have hc : GetCriticalNativeCallArgsSize s = GetCriticalNativeCallArgsSize t := by
    rw [stub_tail_head s hs, stub_tail_head t ht, callArgs_cons, callArgs_cons, h]
  exact ⟨hc, by rw [direct_eq, direct_eq, hc]⟩

theorem C11_return_char_irrelevant_witness :
    GetCriticalNativeCallArgsSize "FIIIIIIIIIJ".toList
        = GetCriticalNativeCallArgsSize "ZIIIIIIIIIJ".toList
      ∧ GetCriticalNativeDirectCallFrameSize "FIIIIIIIIIJ".toList
        = GetCriticalNativeDirectCallFrameSize "ZIIIIIIIIIJ".toList :=
  C11_return_char_irrelevant.1 "FIIIIIIIIIJ".toList "ZIIIIIIIIIJ".toList
    (by decide) (by decide) (by decide)

/-- C12. Tail-call elision is exact: for a non-empty shorty the stub frame size
is 0 exactly when at most 8 argument characters are `F` or `D`, at most 8 are
other characters, and the first character is none of `B`, `C`, `S`, `Z`; in every
other case the stub frame size is at least 16. -/
theorem C12_tail_call_exact (s : List Char) (hs : s ≠ []) :
    (GetCriticalNativeStubFrameSize s = 0
      ↔ fpArgCount s.tail ≤ 8 ∧ intArgCount s.tail ≤ 8 ∧ ¬ IsNarrowReturn (s.head hs))
    ∧ (¬ (fpArgCount s.tail ≤ 8 ∧ intArgCount s.tail ≤ 8 ∧ ¬ IsNarrowReturn (s.head hs))
        → 16 ≤ GetCriticalNativeStubFrameSize s) := by
  cases s with
  | nil => exact absurd rfl hs
  | cons r args =>
    simp only [List.tail_cons, List.head_cons]
    have hz : GetCriticalNativeCallArgsSize (r :: args) = 0
        ↔ fpArgCount args ≤ 8 ∧ intArgCount args ≤ 8 := by
      rw [callArgs_closed]
      omega
    have hiff : GetCriticalNativeStubFrameSize (r :: args) = 0
        ↔ fpArgCount args ≤ 8 ∧ intArgCount args ≤ 8 ∧ ¬ IsNarrowReturn r := by
      rw [stub_eq_zero_iff, hz, and_assoc]
    refine ⟨hiff, fun hn => ?_⟩
    have hne : GetCriticalNativeStubFrameSize (r :: args) ≠ 0 := fun h0 => hn (hiff.1 h0)
    have hdvd : 16 ∣ GetCriticalNativeStubFrameSize (r :: args) := by
      rw [stub_cons]
      split <;> exact (roundUp16_isLeast _).1.1
    obtain ⟨k, hk⟩ := hdvd
    omega

theorem C12_tail_call_exact_witness :
    (GetCriticalNativeStubFrameSize "VFFFFFFFFIIIIIIII".toList = 0
      ↔ fpArgCount "FFFFFFFFIIIIIIII".toList ≤ 8 ∧ intArgCount "FFFFFFFFIIIIIIII".toList ≤ 8
          ∧ ¬ IsNarrowReturn 'V')
    ∧ 16 ≤ GetCriticalNativeStubFrameSize "VFFFFFFFFF".toList :=
  ⟨(C12_tail_call_exact "VFFFFFFFFIIIIIIII".toList (by decide)).1,
   (C12_tail_call_exact "VFFFFFFFFF".toList (by decide)).2 (by decide)⟩

/-- C14. For a non-empty shorty with call-argument size `a`, the stub frame size
minus the direct-call frame size is 0 or 16: it is 16 when `a` is a non-zero
multiple of 16, or when `a = 0` and the first character is narrow; it is 0 when
`a` is congruent to 8 modulo 16, or when `a = 0` and the first character is not
narrow; these four cases cover every shorty. -/
theorem C14_stub_minus_direct (s : List Char) (hs : s ≠ []) :
    (((GetCriticalNativeStubFrameSize s : Int) - GetCriticalNativeDirectCallFrameSize s = 0)
      ∨ ((GetCriticalNativeStubFrameSize s : Int) - GetCriticalNativeDirectCallFrameSize s = 16))
    ∧ (GetCriticalNativeCallArgsSize s ≠ 0 → 16 ∣ GetCriticalNativeCallArgsSize s →
        (GetCriticalNativeStubFrameSize s : Int) - GetCriticalNativeDirectCallFrameSize s = 16)
    ∧ (GetCriticalNativeCallArgsSize s = 0 → IsNarrowReturn (s.head hs) →
        (GetCriticalNativeStubFrameSize s : Int) - GetCriticalNativeDirectCallFrameSize s = 16)
    ∧ (GetCriticalNativeCallArgsSize s % 16 = 8 →
        (GetCriticalNativeStubFrameSize s : Int) - GetCriticalNativeDirectCallFrameSize s = 0)
    ∧ (GetCriticalNativeCallArgsSize s = 0 → ¬ IsNarrowReturn (s.head hs) →
        (GetCriticalNativeStubFrameSize s : Int) - GetCriticalNativeDirectCallFrameSize s = 0)
    ∧ ((GetCriticalNativeCallArgsSize s ≠ 0 ∧ 16 ∣ GetCriticalNativeCallArgsSize s)
        ∨ (GetCriticalNativeCallArgsSize s = 0 ∧ IsNarrowReturn (s.head hs))
        ∨ GetCriticalNativeCallArgsSize s % 16 = 8
        ∨ (GetCriticalNativeCallArgsSize s = 0 ∧ ¬ IsNarrowReturn (s.head hs))) := by
  cases s with
  | nil => exact absurd rfl hs
  | cons r args =>
    simp only [List.head_cons]
    have h8 : 8 ∣ GetCriticalNativeCallArgsSize (r :: args) := by
      rw [callArgs_closed]
      exact Nat.dvd_mul_left 8 _
    rw [stub_cons, direct_eq]
    generalize GetCriticalNativeCallArgsSize (r :: args) = a at h8 ⊢
    by_cases hn : IsNarrowReturn r
    · rw [if_pos (Or.inr hn)]
      simp only [roundUp16]
      push_cast
      refine ⟨by omega, fun _ _ => by omega, fun _ _ => by omega, fun _ => by omega,
        fun _ h => absurd hn h, ?_⟩
      have hcases : (a ≠ 0 ∧ 16 ∣ a) ∨ a = 0 ∨ a % 16 = 8 := by omega
      rcases hcases with h | h | h
      · exact Or.inl h
      · exact Or.inr (Or.inl ⟨h, hn⟩)
      · exact Or.inr (Or.inr (Or.inl h))
    · by_cases ha : a = 0
      · subst ha
        rw [if_neg (by rintro (h | h); exacts [h rfl, hn h])]
        simp [hn, roundUp16]
      · rw [if_pos (Or.inl ha)]
        simp only [roundUp16]
        push_cast
        refine ⟨by omega, fun _ _ => by omega, fun h => absurd h ha, fun _ => by omega,
          fun h => absurd h ha, ?_⟩
        have hcases : (a ≠ 0 ∧ 16 ∣ a) ∨ a % 16 = 8 := by omega
        rcases hcases with h | h
        · exact Or.inl h
        · exact Or.inr (Or.inr (Or.inl h))

theorem C14_stub_minus_direct_witness :
    ((GetCriticalNativeStubFrameSize "VIIIIIIIIII".toList : Int)
        - GetCriticalNativeDirectCallFrameSize "VIIIIIIIIII".toList = 16)
    ∧ ((GetCriticalNativeStubFrameSize ['Z'] : Int)
        - GetCriticalNativeDirectCallFrameSize ['Z'] = 16)
    ∧ ((GetCriticalNativeStubFrameSize "VIIIIIIIII".toList : Int)
        - GetCriticalNativeDirectCallFrameSize "VIIIIIIIII".toList = 0)
    ∧ ((GetCriticalNativeStubFrameSize ['J'] : Int)
        - GetCriticalNativeDirectCallFrameSize ['J'] = 0) :=
  ⟨(C14_stub_minus_direct "VIIIIIIIIII".toList (by decide)).2.1 (by decide) (by decide),
   (C14_stub_minus_direct ['Z'] (by decide)).2.2.1 (by decide) (by decide),
   (C14_stub_minus_direct "VIIIIIIIII".toList (by decide)).2.2.2.1 (by decide),
   (C14_stub_minus_direct ['J'] (by decide)).2.2.2.2.1 (by decide) (by decide)⟩

/-- C15. Argument order is irrelevant: two non-empty shorties with the same first
character whose remaining characters are permutations of each other have the
same call-argument size, stub frame size and direct-call frame size. -/
theorem C15_argument_order_irrelevant (s t : List Char) (hs : s ≠ []) (ht : t ≠ [])
    (hhead : s.head hs = t.head ht) (hperm : s.tail.Perm t.tail) :
    GetCriticalNativeCallArgsSize s = GetCriticalNativeCallArgsSize t
      ∧ GetCriticalNativeStubFrameSize s = GetCriticalNativeStubFrameSize t
      ∧ GetCriticalNativeDirectCallFrameSize s = GetCriticalNativeDirectCallFrameSize t := by
  have hc : GetCriticalNativeCallArgsSize s = GetCriticalNativeCallArgsSize t := by
    rw [stub_tail_head s hs, stub_tail_head t ht, callArgs_cons, callArgs_cons,
      fpArgCount_perm hperm, intArgCount_perm hperm]
  refine ⟨hc, ?_, by rw [direct_eq, direct_eq, hc]⟩
  have h1 := stub_cons (s.head hs) s.tail
  have h2 := stub_cons (t.head ht) t.tail
  rw [← stub_tail_head s hs] at h1
  rw [← stub_tail_head t ht] at h2
  rw [h1, h2, hc, hhead]

theorem C15_argument_order_irrelevant_witness :
    GetCriticalNativeCallArgsSize "ZIFIIIIIIIID".toList
        = GetCriticalNativeCallArgsSize "ZDIIIIIIIIFI".toList
      ∧ GetCriticalNativeStubFrameSize "ZIFIIIIIIIID".toList
        = GetCriticalNativeStubFrameSize "ZDIIIIIIIIFI".toList
      ∧ GetCriticalNativeDirectCallFrameSize "ZIFIIIIIIIID".toList
        = GetCriticalNativeDirectCallFrameSize "ZDIIIIIIIIFI".toList :=
  C15_argument_order_irrelevant "ZIFIIIIIIIID".toList "ZDIIIIIIIIFI".toList
    (by decide) (by decide) (by decide) (by decide)

/-- C16. For a non-empty shorty with `k = length - 1` arguments the call-argument
size lies between `8 * max (k - 16) 0` and `8 * max (k - 8) 0`; hence it is 0 for
at most 8 arguments and positive for more than 16, whatever the mix of types. -/
theorem C16_call_args_bounds (s : List Char) (hs : s ≠ []) :
    (8 * max ((s.length : Int) - 1 - 16) 0 ≤ (GetCriticalNativeCallArgsSize s : Int))
    ∧ ((GetCriticalNativeCallArgsSize s : Int) ≤ 8 * max ((s.length : Int) - 1 - 8) 0)
    ∧ (s.length - 1 ≤ 8 → GetCriticalNativeCallArgsSize s = 0)
    ∧ (16 < s.length - 1 → 0 < GetCriticalNativeCallArgsSize s) := by
  cases s with
  | nil => exact absurd rfl hs
  | cons r args =>
    have h := fpArgCount_add_intArgCount args
    rw [callArgs_closed]
    simp only [List.length_cons]
    push_cast
    omega

theorem C16_call_args_bounds_witness :
    GetCriticalNativeCallArgsSize "VFFFFIIII".toList = 0
      ∧ 0 < GetCriticalNativeCallArgsSize "VFFFFFFFFIIIIIIIIJ".toList :=
  ⟨(C16_call_args_bounds "VFFFFIIII".toList (by decide)).2.2.1 (by decide),
   (C16_call_args_bounds "VFFFFFFFFIIIIIIIIJ".toList (by decide)).2.2.2 (by decide)⟩

/-- Appending one argument character to a non-empty shorty never decreases one of
the three sizes and raises the call-argument size by 0 or by 8. -/
theorem append_char_sizes (s : List Char) (c : Char) (hs : s ≠ []) :
    GetCriticalNativeCallArgsSize s ≤ GetCriticalNativeCallArgsSize (s ++ [c])
      ∧ GetCriticalNativeStubFrameSize s ≤ GetCriticalNativeStubFrameSize (s ++ [c])
      ∧ GetCriticalNativeDirectCallFrameSize s
          ≤ GetCriticalNativeDirectCallFrameSize (s ++ [c])
      ∧ (GetCriticalNativeCallArgsSize (s ++ [c]) = GetCriticalNativeCallArgsSize s
          ∨ GetCriticalNativeCallArgsSize (s ++ [c]) = GetCriticalNativeCallArgsSize s + 8) := by
  cases s with
  | nil => exact absurd rfl hs
  | cons r args =>
    have hone : fpArgCount [c] + intArgCount [c] = 1 := fpArgCount_add_intArgCount [c]
    have hstep : GetCriticalNativeCallArgsSize (r :: args ++ [c])
          = GetCriticalNativeCallArgsSize (r :: args)
        ∨ GetCriticalNativeCallArgsSize (r :: args ++ [c])
          = GetCriticalNativeCallArgsSize (r :: args) + 8 := by
      rw [List.cons_append, callArgs_closed, callArgs_closed, fpArgCount_append,
        intArgCount_append]
      omega
    have hle : GetCriticalNativeCallArgsSize (r :: args)
        ≤ GetCriticalNativeCallArgsSize (r :: args ++ [c]) := by
      omega
    refine ⟨hle, ?_, ?_, hstep⟩
    · rw [List.cons_append] at hle ⊢
      rw [stub_cons, stub_cons]
      by_cases h : GetCriticalNativeCallArgsSize (r :: args) ≠ 0 ∨ IsNarrowReturn r
      · have h2 : GetCriticalNativeCallArgsSize (r :: (args ++ [c])) ≠ 0 ∨ IsNarrowReturn r := by
          rcases h with h | h
          · exact Or.inl (by omega)
          · exact Or.inr h
        rw [if_pos h, if_pos h2]
        exact roundUp16_mono (by omega)
      · rw [if_neg h]
        have h0 : GetCriticalNativeCallArgsSize (r :: args) = 0 :=
          by_contra fun hne => h (Or.inl hne)
        rw [h0]
        exact Nat.zero_le _
    · rw [direct_eq, direct_eq]
      exact roundUp16_mono hle

/-! ## Lemmas on 64-bit words -/

theorem sub64_of_le (a b : Nat) (h : b ≤ a) (ha : a < 2 ^ 64) :
    sub64 a b = (a - b, false) := by
  simp only [sub64, kSizeModulus, Prod.mk.injEq, decide_eq_false_iff_not]
  omega

theorem add64_of_lt (a b : Nat) (h : a + b < 2 ^ 64) : add64 a b = (a + b, false) := by
  simp only [add64, kSizeModulus, Prod.mk.injEq, decide_eq_false_iff_not]
  omega

theorem mul64_of_lt (a b : Nat) (h : a * b < 2 ^ 64) : mul64 a b = (a * b, false) := by
  simp only [mul64, kSizeModulus, Prod.mk.injEq, decide_eq_false_iff_not]
  exact ⟨Nat.mod_eq_of_lt h, Nat.not_le.2 h⟩

theorem outArgs64_eq (fp nonFp : Nat) (hfp : fp < 2 ^ 60) (hnon : nonFp < 2 ^ 60) :
    GetNativeOutArgsSize64 fp nonFp = (GetNativeOutArgsSize fp nonFp, false) := by
  simp only [GetNativeOutArgsSize64, GetNativeOutArgsSize, kMaxFloatOrDoubleRegisterArguments,
    kMaxIntLikeRegisterArguments, kArm64PointerSize]
  rw [sub64_of_le fp (min 8 fp) (Nat.min_le_right _ _) (by omega),
    sub64_of_le nonFp (min 8 nonFp) (Nat.min_le_right _ _) (by omega)]
  simp only []
  rw [add64_of_lt _ _ (by omega)]
  simp only []
  rw [mul64_of_lt _ _ (by omega)]
  rfl

theorem callArgs64_eq (s : List Char) (h1 : 1 ≤ s.length) (h2 : s.length ≤ 2 ^ 60) :
    GetCriticalNativeCallArgsSize64 s = (GetCriticalNativeCallArgsSize s, false) := by
  have hs : s ≠ [] := by
    intro h
    rw [h] at h1
    exact absurd h1 (by decide)
  have hle := countP_tail_le s hs
  simp only [GetCriticalNativeCallArgsSize64, GetCriticalNativeCallArgsSize]
  rw [sub64_of_le s.length 1 h1 (by omega)]
  simp only []
  rw [sub64_of_le (s.length - 1) _ hle (by omega)]
  simp only []
  rw [outArgs64_eq _ _ (by omega) (by omega)]
  rfl

theorem callArgs_le (s : List Char) (hs : s ≠ []) :
    GetCriticalNativeCallArgsSize s ≤ 8 * (s.length - 1) := by
  cases s with
  | nil => exact absurd rfl hs
  | cons r args =>
    have h := fpArgCount_add_intArgCount args
    rw [callArgs_closed]
    simp only [List.length_cons]
    omega

theorem roundUp64_eq (x : Nat) (h : x + 16 < 2 ^ 64) :
    RoundUp64 x 16 = (RoundUp x 16, false) := by
  simp only [RoundUp64]
  rw [add64_of_lt x 16 h]
  simp only []
  rw [sub64_of_le (x + 16) 1 (by omega) h]
  rfl

theorem stub64_eq (s : List Char) (h1 : 1 ≤ s.length) (h2 : s.length ≤ 2 ^ 60) :
    GetCriticalNativeStubFrameSize64 s = (GetCriticalNativeStubFrameSize s, false) := by
  have hs : s ≠ [] := by
    intro h
    rw [h] at h1
    exact absurd h1 (by decide)
  have hle := callArgs_le s hs
  simp only [GetCriticalNativeStubFrameSize64, GetCriticalNativeStubFrameSize,
    kFramePointerSize, kArm64PointerSize, kAapcs64StackAlignment]
  rw [callArgs64_eq s h1 h2]
  simp only []
  split
  · rw [add64_of_lt _ 8 (by omega)]
    simp only []
    rw [roundUp64_eq _ (by omega)]
    rfl
  · rw [roundUp64_eq _ (by omega)]
    rfl

/-! ## Claims on 64-bit words -/

/-- C18. With `size_t` as 64-bit unsigned arithmetic: for `fp, nonFp < 2 ^ 60` no
operation of `GetNativeOutArgsSize` wraps and the result is the exact value
`(max (fp - 8) 0 + max (nonFp - 8) 0) * 8`; for a shorty of length between 1 and
`2 ^ 60` neither the addition of the return-address word nor the round-up to 16
in `GetCriticalNativeStubFrameSize` wraps (indeed no operation does), and the
result is the exact one. -/
theorem C18_no_wrap_below_2_pow_60 :
    (∀ fp nonFp : Nat, fp < 2 ^ 60 → nonFp < 2 ^ 60 →
      (GetNativeOutArgsSize64 fp nonFp).2 = false
        ∧ ((GetNativeOutArgsSize64 fp nonFp).1 : Int)
            = (max ((fp : Int) - 8) 0 + max ((nonFp : Int) - 8) 0) * 8)
    ∧ (∀ s : List Char, 1 ≤ s.length → s.length ≤ 2 ^ 60 →
      (add64 (GetCriticalNativeCallArgsSize64 s).1 kFramePointerSize).2 = false
        ∧ (RoundUp64 (GetCriticalNativeCallArgsSize64 s).1 kAapcs64StackAlignment).2 = false
        ∧ (RoundUp64 (add64 (GetCriticalNativeCallArgsSize64 s).1 kFramePointerSize).1
              kAapcs64StackAlignment).2 = false
        ∧ (GetCriticalNativeStubFrameSize64 s).2 = false
        ∧ (GetCriticalNativeStubFrameSize64 s).1 = GetCriticalNativeStubFrameSize s) := by
  refine ⟨fun fp nonFp hfp hnon => ?_, fun s h1 h2 => ?_⟩
  · rw [outArgs64_eq fp nonFp hfp hnon, outArgs_closed]
    refine ⟨rfl, ?_⟩
    push_cast
    omega
  · have hs : s ≠ [] := by
      intro h
      rw [h] at h1
      exact absurd h1 (by decide)
    have hle := callArgs_le s hs
    rw [callArgs64_eq s h1 h2, stub64_eq s h1 h2]
    simp only [kFramePointerSize, kArm64PointerSize, kAapcs64StackAlignment]
    rw [add64_of_lt _ 8 (by omega)]
    simp only []
    rw [roundUp64_eq _ (by omega), roundUp64_eq _ (by omega)]
    refine ⟨?_, ?_, ?_, ?_, ?_⟩ <;> first | rfl | trivial

theorem C18_no_wrap_below_2_pow_60_witness :
    ((GetNativeOutArgsSize64 11 9).2 = false
        ∧ ((GetNativeOutArgsSize64 11 9).1 : Int)
            = (max (((11 : Nat) : Int) - 8) 0 + max (((9 : Nat) : Int) - 8) 0) * 8)
    ∧ (GetCriticalNativeStubFrameSize64 "ZIIIIIIIIIJ".toList).2 = false
    ∧ (GetCriticalNativeStubFrameSize64 "ZIIIIIIIIIJ".toList).1
        = GetCriticalNativeStubFrameSize "ZIIIIIIIIIJ".toList :=
  ⟨C18_no_wrap_below_2_pow_60.1 11 9 (by decide) (by decide),
   (C18_no_wrap_below_2_pow_60.2 "ZIIIIIIIIIJ".toList (by decide)
      (by decide)).2.2.2⟩

/-- C19. For a non-empty shorty the unsigned subtractions do not underflow: the
count of `F`/`D` characters after the first is at most `length - 1`, so neither
`length - 1` nor `length - 1 - num_fp_args` wraps and the latter is the true
number of other argument characters; and in `GetNativeOutArgsSize`, for every
word `x`, `min 8 x ≤ x`, so each subtraction `x - min 8 x` yields `max (x - 8) 0`
without wrapping. -/
theorem C19_subtractions_do_not_underflow :
    (∀ s : List Char, s ≠ [] → s.length < 2 ^ 64 →
      s.tail.countP isFpChar ≤ s.length - 1
        ∧ sub64 s.length 1 = (s.length - 1, false)
        ∧ sub64 (sub64 s.length 1).1 (s.tail.countP isFpChar) = (intArgCount s.tail, false)
        ∧ (s.length : Int) - 1 - (s.tail.countP isFpChar : Int) = (intArgCount s.tail : Int))
    ∧ (∀ x : Nat, x < 2 ^ 64 →
      min kMaxFloatOrDoubleRegisterArguments x ≤ x
        ∧ min kMaxIntLikeRegisterArguments x ≤ x
        ∧ (sub64 x (min kMaxFloatOrDoubleRegisterArguments x)).2 = false
        ∧ (sub64 x (min kMaxIntLikeRegisterArguments x)).2 = false
        ∧ ((sub64 x (min kMaxFloatOrDoubleRegisterArguments x)).1 : Int) = max ((x : Int) - 8) 0
        ∧ ((sub64 x (min kMaxIntLikeRegisterArguments x)).1 : Int) = max ((x : Int) - 8) 0) := by
  refine ⟨fun s hs hlen => ?_, fun x hx => ?_⟩
  · have hle := countP_tail_le s hs
    cases s with
    | nil => exact absurd rfl hs
    | cons r args =>
      have hsum := fpArgCount_add_intArgCount args
      simp only [List.tail_cons, List.length_cons, countP_isFpChar] at hle hlen ⊢
      rw [sub64_of_le (args.length + 1) 1 (by omega) hlen]
      simp only [Nat.add_sub_cancel]
      rw [sub64_of_le args.length (fpArgCount args) (by omega) (by omega)]
      refine ⟨by omega, by first | rfl | trivial, ?_, by omega⟩
      congr 1
      omega
  · simp only [kMaxFloatOrDoubleRegisterArguments, kMaxIntLikeRegisterArguments]
    rw [sub64_of_le x (min 8 x) (Nat.min_le_right _ _) hx]
    refine ⟨Nat.min_le_right _ _, Nat.min_le_right _ _, rfl, rfl, ?_, ?_⟩ <;>
    · simp only []
      omega

theorem C19_subtractions_do_not_underflow_witness :
    (sub64 "VFIDJ".toList.length 1 = ("VFIDJ".toList.length - 1, false)
      ∧ sub64 (sub64 "VFIDJ".toList.length 1).1 ("VFIDJ".toList.tail.countP isFpChar)
          = (intArgCount "VFIDJ".toList.tail, false))
    ∧ (sub64 11 (min kMaxFloatOrDoubleRegisterArguments 11)).2 = false
    ∧ (sub64 3 (min kMaxIntLikeRegisterArguments 3)).2 = false :=
  ⟨⟨(C19_subtractions_do_not_underflow.1 "VFIDJ".toList (by decide) (by decide)).2.1,
    (C19_subtractions_do_not_underflow.1 "VFIDJ".toList (by decide) (by decide)).2.2.1⟩,
   (C19_subtractions_do_not_underflow.2 11 (by decide)).2.2.1,
   (C19_subtractions_do_not_underflow.2 3 (by decide)).2.2.2.1⟩

/-! ## Claims about `GetNativeOutArgsSize` on arbitrary counts

The counts are `size_t` parameters, so a caller may pass any word. The sum of
the stack counts is multiplied by 8 on words, and the product wraps once the
exact size reaches `2 ^ 64`. The statements below are therefore made on
`GetNativeOutArgsSize64`, the code on words. -/

theorem outArgs64_of_fits (fp nonFp : Nat) (h : ((fp - 8) + (nonFp - 8)) * 8 < 2 ^ 64) :
    GetNativeOutArgsSize64 fp nonFp = (((fp - 8) + (nonFp - 8)) * 8, false) := by
  simp only [GetNativeOutArgsSize64, kMaxFloatOrDoubleRegisterArguments,
    kMaxIntLikeRegisterArguments, kArm64PointerSize]
  rw [sub64_of_le fp (min 8 fp) (Nat.min_le_right _ _) (by omega),
    sub64_of_le nonFp (min 8 nonFp) (Nat.min_le_right _ _) (by omega)]
  simp only []
  rw [add64_of_lt _ _ (by omega)]
  simp only []
  rw [mul64_of_lt _ _ (by omega)]
  simp only [Bool.or_self, Prod.mk.injEq, and_true]
  omega

/-- C1, as stated, fails on the code: at `fp = 2 ^ 61 + 8`, `nonFp = 0` the product
`2 ^ 61 * 8` wraps, the code returns 0 and the formula gives `2 ^ 64`. -/
theorem C1_formula_fails_when_product_wraps :
    (GetNativeOutArgsSize64 (2 ^ 61 + 8) 0).1 = 0
    ∧ (max (((2 ^ 61 + 8 : Nat) : Int) - 8) 0 + max (((0 : Nat) : Int) - 8) 0) * 8 = 2 ^ 64
    ∧ ((GetNativeOutArgsSize64 (2 ^ 61 + 8) 0).1 : Int)
        ≠ (max (((2 ^ 61 + 8 : Nat) : Int) - 8) 0 + max (((0 : Nat) : Int) - 8) 0) * 8 := by
  decide

/-- C1, amended. For all counts whose exact size
`(max (fp - 8) 0 + max (nonFp - 8) 0) * 8` is below `2 ^ 64`, no operation of
`GetNativeOutArgsSize` wraps and the result is that size; it is 0 whenever both
counts are at most 8, in particular at `fp = nonFp = 0`. -/
theorem C1_out_args_size_when_it_fits :
    (∀ fp nonFp : Nat,
      (max ((fp : Int) - 8) 0 + max ((nonFp : Int) - 8) 0) * 8 < 2 ^ 64 →
      (GetNativeOutArgsSize64 fp nonFp).2 = false
        ∧ ((GetNativeOutArgsSize64 fp nonFp).1 : Int)
            = (max ((fp : Int) - 8) 0 + max ((nonFp : Int) - 8) 0) * 8)
    ∧ (∀ fp nonFp : Nat, fp ≤ 8 → nonFp ≤ 8 → (GetNativeOutArgsSize64 fp nonFp).1 = 0)
    ∧ (GetNativeOutArgsSize64 0 0).1 = 0 := by
  refine ⟨fun fp nonFp h => ?_, fun fp nonFp h1 h2 => ?_, by decide⟩
  · rw [outArgs64_of_fits fp nonFp (by omega)]
    refine ⟨rfl, ?_⟩
    push_cast
    omega
  · rw [outArgs64_of_fits fp nonFp (by omega)]
    simp only []
    omega

theorem C1_out_args_size_when_it_fits_witness :
    ((GetNativeOutArgsSize64 11 9).2 = false
        ∧ ((GetNativeOutArgsSize64 11 9).1 : Int)
            = (max (((11 : Nat) : Int) - 8) 0 + max (((9 : Nat) : Int) - 8) 0) * 8)
    ∧ (GetNativeOutArgsSize64 8 3).1 = 0 :=
  ⟨C1_out_args_size_when_it_fits.1 11 9 (by decide),
   C1_out_args_size_when_it_fits.2.1 8 3 (by decide) (by decide)⟩

/-- C10, as stated, fails on the code: at `fp = nonFp = 2 ^ 60 + 8` the result is 0
while the two single-class results are `2 ^ 63` each, and at `fp = 2 ^ 61 + 8`,
`nonFp = 0` the result 0 is below `(fp - 8) * 8`. -/
theorem C10_additivity_fails_when_product_wraps :
    (GetNativeOutArgsSize64 (2 ^ 60 + 8) (2 ^ 60 + 8)).1 = 0
    ∧ (GetNativeOutArgsSize64 (2 ^ 60 + 8) 0).1 = 2 ^ 63
    ∧ (GetNativeOutArgsSize64 0 (2 ^ 60 + 8)).1 = 2 ^ 63
    ∧ (GetNativeOutArgsSize64 (2 ^ 60 + 8) (2 ^ 60 + 8)).1
        ≠ (GetNativeOutArgsSize64 (2 ^ 60 + 8) 0).1 + (GetNativeOutArgsSize64 0 (2 ^ 60 + 8)).1
    ∧ 8 < 2 ^ 61 + 8
    ∧ ¬ ((2 ^ 61 + 8 - 8) * 8 ≤ (GetNativeOutArgsSize64 (2 ^ 61 + 8) 0).1) := by
  decide

/-- C10, amended. Overflow is computed per class: for all counts whose exact size
`((fp - 8) + (nonFp - 8)) * 8` (differences cut off at 0) is below `2 ^ 64`,
`GetNativeOutArgsSize fp nonFp` is the sum of `GetNativeOutArgsSize fp 0` and
`GetNativeOutArgsSize 0 nonFp`, and for `fp > 8` it is at least `(fp - 8) * 8`;
when `nonFp = 0` and `8 < fp ≤ 16` it is exactly `(fp - 8) * 8` and positive
(`GetNativeOutArgsSize 9 0 = 8`); symmetrically for `nonFp` with `fp = 0`. -/
theorem C10_per_class_overflow_when_it_fits :
    (∀ fp nonFp : Nat, ((fp - 8) + (nonFp - 8)) * 8 < 2 ^ 64 →
      (GetNativeOutArgsSize64 fp nonFp).1
        = (GetNativeOutArgsSize64 fp 0).1 + (GetNativeOutArgsSize64 0 nonFp).1)
    ∧ (∀ fp nonFp : Nat, ((fp - 8) + (nonFp - 8)) * 8 < 2 ^ 64 → 8 < fp →
        (fp - 8) * 8 ≤ (GetNativeOutArgsSize64 fp nonFp).1)
    ∧ (∀ fp : Nat, 8 < fp → fp ≤ 16 →
        (GetNativeOutArgsSize64 fp 0).1 = (fp - 8) * 8 ∧ 0 < (GetNativeOutArgsSize64 fp 0).1)
    ∧ (GetNativeOutArgsSize64 9 0).1 = 8
    ∧ (∀ fp nonFp : Nat, ((fp - 8) + (nonFp - 8)) * 8 < 2 ^ 64 → 8 < nonFp →
        (nonFp - 8) * 8 ≤ (GetNativeOutArgsSize64 fp nonFp).1)
    ∧ (∀ nonFp : Nat, 8 < nonFp → nonFp ≤ 16 →
        (GetNativeOutArgsSize64 0 nonFp).1 = (nonFp - 8) * 8
          ∧ 0 < (GetNativeOutArgsSize64 0 nonFp).1)
    ∧ (GetNativeOutArgsSize64 0 9).1 = 8 := by
  refine ⟨fun fp nonFp h => ?_, fun fp nonFp h hfp => ?_, fun fp h1 h2 => ?_, by decide,
    fun fp nonFp h hnon => ?_, fun nonFp h1 h2 => ?_, by decide⟩
  · rw [outArgs64_of_fits fp nonFp h, outArgs64_of_fits fp 0 (by omega),
      outArgs64_of_fits 0 nonFp (by omega)]
    simp only []
    omega
  · rw [outArgs64_of_fits fp nonFp h]
    simp only []
    omega
  · rw [outArgs64_of_fits fp 0 (by omega)]
    simp only []
    omega
  · rw [outArgs64_of_fits fp nonFp h]
    simp only []
    omega
  · rw [outArgs64_of_fits 0 nonFp (by omega)]
    simp only []
    omega

theorem C10_per_class_overflow_when_it_fits_witness :
    (GetNativeOutArgsSize64 10 12).1
        = (GetNativeOutArgsSize64 10 0).1 + (GetNativeOutArgsSize64 0 12).1
      ∧ (10 - 8) * 8 ≤ (GetNativeOutArgsSize64 10 6).1
      ∧ (10 - 8) * 8 ≤ (GetNativeOutArgsSize64 6 10).1
      ∧ (GetNativeOutArgsSize64 10 0).1 = (10 - 8) * 8
      ∧ (GetNativeOutArgsSize64 0 10).1 = (10 - 8) * 8 :=
  ⟨C10_per_class_overflow_when_it_fits.1 10 12 (by decide),
   C10_per_class_overflow_when_it_fits.2.1 10 6 (by decide) (by decide),
   C10_per_class_overflow_when_it_fits.2.2.2.2.1 6 10 (by decide) (by decide),
   (C10_per_class_overflow_when_it_fits.2.2.1 10 (by decide) (by decide)).1,
   (C10_per_class_overflow_when_it_fits.2.2.2.2.2.1 10 (by decide) (by decide)).1⟩

/-- C17, as stated, fails on the code: raising `fp` from `2 ^ 61 + 7` to
`2 ^ 61 + 8` with `nonFp = 0` lowers the result from `2 ^ 64 - 8` to 0, and the
same happens in the other count. -/
theorem C17_monotonicity_fails_when_product_wraps :
    2 ^ 61 + 7 ≤ 2 ^ 61 + 8
    ∧ (GetNativeOutArgsSize64 (2 ^ 61 + 7) 0).1 = 2 ^ 64 - 8
    ∧ (GetNativeOutArgsSize64 (2 ^ 61 + 8) 0).1 = 0
    ∧ ¬ ((GetNativeOutArgsSize64 (2 ^ 61 + 7) 0).1 ≤ (GetNativeOutArgsSize64 (2 ^ 61 + 8) 0).1)
    ∧ ¬ ((GetNativeOutArgsSize64 0 (2 ^ 61 + 7)).1 ≤ (GetNativeOutArgsSize64 0 (2 ^ 61 + 8)).1) := by
  decide

/-- C17, amended. `GetNativeOutArgsSize` is non-decreasing in each count as long
as the exact size at the larger count, `((fp - 8) + (nonFp - 8)) * 8` with
differences cut off at 0, is below `2 ^ 64`; and appending one argument character
to a non-empty shorty never decreases the call-argument size, the stub frame
size or the direct-call frame size, and raises the call-argument size by 0 or
by exactly 8. -/
theorem C17_monotone_when_it_fits :
    (∀ fp fp2 nonFp : Nat, fp ≤ fp2 → ((fp2 - 8) + (nonFp - 8)) * 8 < 2 ^ 64 →
      (GetNativeOutArgsSize64 fp nonFp).1 ≤ (GetNativeOutArgsSize64 fp2 nonFp).1)
    ∧ (∀ fp nonFp nonFp2 : Nat, nonFp ≤ nonFp2 → ((fp - 8) + (nonFp2 - 8)) * 8 < 2 ^ 64 →
      (GetNativeOutArgsSize64 fp nonFp).1 ≤ (GetNativeOutArgsSize64 fp nonFp2).1)
    ∧ (∀ (s : List Char) (c : Char), s ≠ [] →
      GetCriticalNativeCallArgsSize s ≤ GetCriticalNativeCallArgsSize (s ++ [c])
        ∧ GetCriticalNativeStubFrameSize s ≤ GetCriticalNativeStubFrameSize (s ++ [c])
        ∧ GetCriticalNativeDirectCallFrameSize s
            ≤ GetCriticalNativeDirectCallFrameSize (s ++ [c])
        ∧ (GetCriticalNativeCallArgsSize (s ++ [c]) = GetCriticalNativeCallArgsSize s
            ∨ GetCriticalNativeCallArgsSize (s ++ [c]) = GetCriticalNativeCallArgsSize s + 8)) := by
  refine ⟨fun fp fp2 nonFp h hfit => ?_, fun fp nonFp nonFp2 h hfit => ?_,
    fun s c hs => append_char_sizes s c hs⟩
  · rw [outArgs64_of_fits fp nonFp (by omega), outArgs64_of_fits fp2 nonFp hfit]
    simp only []
    omega
  · rw [outArgs64_of_fits fp nonFp (by omega), outArgs64_of_fits fp nonFp2 hfit]
    simp only []
    omega

theorem C17_monotone_when_it_fits_witness :
    (GetNativeOutArgsSize64 9 3).1 ≤ (GetNativeOutArgsSize64 12 3).1
      ∧ (GetNativeOutArgsSize64 3 9).1 ≤ (GetNativeOutArgsSize64 3 12).1
      ∧ GetCriticalNativeStubFrameSize "VIIIIIIII".toList
          ≤ GetCriticalNativeStubFrameSize ("VIIIIIIII".toList ++ ['J'])
      ∧ (GetCriticalNativeCallArgsSize ("VIIIIIIII".toList ++ ['J'])
            = GetCriticalNativeCallArgsSize "VIIIIIIII".toList
          ∨ GetCriticalNativeCallArgsSize ("VIIIIIIII".toList ++ ['J'])
            = GetCriticalNativeCallArgsSize "VIIIIIIII".toList + 8) :=
  ⟨C17_monotone_when_it_fits.1 9 12 3 (by decide) (by decide),
   C17_monotone_when_it_fits.2.1 3 9 12 (by decide) (by decide),
   (C17_monotone_when_it_fits.2.2 "VIIIIIIII".toList 'J' (by decide)).2.1,
   (C17_monotone_when_it_fits.2.2 "VIIIIIIII".toList 'J' (by decide)).2.2.2⟩

end art.arm64
